import Mathlib

/-!
Verification of the BananaSlice generation-request pipeline and compositing
engine (Rust sources under src-tauri/src).

Modelling conventions:
* Rust `u32` values are Lean `Nat`s; where the source performs `u32` addition
  whose overflow behaviour matters (the compositing coordinate arithmetic in
  `composite_patch`), the release-build wrapping semantics is made explicit
  with `% u32Mod`.  Logging macros (`log::info!` / `log::error!`) are no-ops:
  `lib.rs` installs the logger only under `debug_assertions`, so in a release
  build their arguments are never evaluated.
* The `f32` arithmetic of `alpha_blend` is modelled by exact integer
  arithmetic: `overlay*alpha + base*(1-alpha)` with `alpha = a/255`, truncated
  to an integer, equals `(o*a + b*(255-a)) / 255` in `Nat` division.  At the
  alpha values the claims evaluate (0 and 255) the `f32` computation is exact,
  so the model and the source agree there.
* The `f64` arithmetic of `calculate_aspect_ratio` is modelled by exact
  extended rationals (finite rational, +infinity, NaN).  `f64` division is
  correctly rounded, so equal real quotients yield equal `f64`s, and the
  NaN/infinity comparison semantics (`NaN < x` and `inf < finite` are false)
  is modelled exactly; only ties between finite candidate differences could
  distinguish the model from `f64`, and no claim below depends on such a tie.
* External crates (serde_json, base64, reqwest, the `image` codec/resampler)
  are not part of this repository; functions touching them take their outcome
  as an explicit argument or model them from the spec (marked in doc strings).
-/

namespace BananaSlice

set_option maxRecDepth 8000

/-- One RGBA pixel, 8 bits per channel (each component in 0..255). -/
structure Rgba where
  r : Nat
  g : Nat
  b : Nat
  a : Nat
deriving DecidableEq

/-- An RGBA raster: dimensions plus a pixel lookup function, the shallow
embedding of the `image` crate's `RgbaImage` buffer.  Lookups outside the
`width × height` rectangle are never produced by the modelled code. -/
structure Raster where
  width : Nat
  height : Nat
  pix : Nat → Nat → Rgba

/-- The modulus 2^32 of Rust `u32` arithmetic. -/
def u32Mod : Nat := 4294967296

/-- One channel of `alpha_blend` (composite.rs lines 144-146):
`(overlay as f32 * alpha) + (base as f32 * inv_alpha)` truncated to `u8`,
with `alpha = overlay_a / 255`.  Modelled as exact arithmetic:
`(o*a + b*(255-a)) / 255` in natural-number division. -/
def blendChannel (b o a : Nat) : Nat := (o * a + b * (255 - a)) / 255

/-- Shallow embedding of `alpha_blend` (composite.rs lines 139-149): blends
the RGB channels by the overlay's alpha and forces the output alpha to 255. -/
def alpha_blend (base overlay : Rgba) : Rgba :=
  { r := blendChannel base.r overlay.r overlay.a,
    g := blendChannel base.g overlay.g overlay.a,
    b := blendChannel base.b overlay.b overlay.a,
    a := 255 }

/-- Functional update of one pixel, the embedding of `ImageBuffer::put_pixel`. -/
def putPixel (img : Raster) (x y : Nat) (p : Rgba) : Raster :=
  { img with pix := fun u v => if u = x ∧ v = y then p else img.pix u v }

/-- One iteration of the compositing loop body (composite.rs lines 109-119)
for patch pixel `(px, py)`: compute the target coordinates `x + px`, `y + py`
(wrapping `u32` addition), and if they are in bounds, alpha-blend the patch
pixel over the current accumulated raster. -/
def blendStep (patch : Raster) (x y px py : Nat) (acc : Raster) : Raster :=
  if (x + px) % u32Mod < acc.width ∧ (y + py) % u32Mod < acc.height then
    putPixel acc ((x + px) % u32Mod) ((y + py) % u32Mod)
      (alpha_blend (acc.pix ((x + px) % u32Mod) ((y + py) % u32Mod)) (patch.pix px py))
  else acc

/-- One row of the compositing loop: fold `blendStep` over `px < patch.width`
at fixed `py` (the inner dimension of `enumerate_pixels`, which iterates the
patch in row-major order). -/
def rowStep (patch : Raster) (x y py : Nat) (acc : Raster) : Raster :=
  (List.range patch.width).foldl (fun a px => blendStep patch x y px py a) acc

/-- The compositing loop of `composite_patch` (composite.rs lines 109-120):
iterate over every patch pixel in row-major order, blending in-bounds target
pixels onto the base raster. -/
def compositeLoop (base patch : Raster) (x y : Nat) : Raster :=
  (List.range patch.height).foldl (fun acc py => rowStep patch x y py acc) base

/-- Modelled from the spec: `DynamicImage::resize_exact` with the Lanczos3
filter is external `image`-crate code, not part of this repository.  Per spec
section 4.5 step 2, a resize to the patch's own native size leaves it as-is;
for a genuinely different target size the result has the target dimensions and
resampled content (the resampled pixel values are not relied on by any claim;
they are modelled here by nearest-neighbour sampling as a stand-in). -/
def resize_exact (img : Raster) (w h : Nat) : Raster :=
  if w = img.width ∧ h = img.height then img
  else
    { width := w, height := h,
      pix := fun u v => img.pix (u * img.width / w) (v * img.height / h) }

/-- Shallow embedding of `composite_patch` (composite.rs lines 63-136) after
base64/image decoding: the base64 and image codecs are external crates, so the
function is modelled from the successfully decoded base and patch rasters to
the result raster that is then encoded (PNG encoding preserves pixels
exactly).  If both target dimensions are positive the patch is first resized
to the target size (lines 89-102), then the compositing loop runs. -/
def composite_patch (base patch : Raster) (x y target_width target_height : Nat) : Raster :=
  compositeLoop base
    (if 0 < target_width ∧ 0 < target_height then
       resize_exact patch target_width target_height
     else patch) x y

/-- For a write target `t = (o + s) % 2^32`, recover the source index `s`:
`srcOf o t` is the unique `s < 2^32` with `(o + s) % 2^32 = t` (when `t < 2^32`). -/
def srcOf (o t : Nat) : Nat := (t + (u32Mod - o % u32Mod)) % u32Mod

theorem srcOf_lt (o t : Nat) : srcOf o t < u32Mod := by
  simp only [srcOf, u32Mod]
  omega

theorem srcOf_add (o s : Nat) (hs : s < u32Mod) : srcOf o ((o + s) % u32Mod) = s := by
  simp only [srcOf, u32Mod] at *
  omega

theorem add_srcOf (o t : Nat) (ht : t < u32Mod) : (o + srcOf o t) % u32Mod = t := by
  simp only [srcOf, u32Mod] at *
  omega

theorem srcOf_eq_imp (o t s : Nat) (ht : t < u32Mod) (h : srcOf o t = s) :
    t = (o + s) % u32Mod := by
  have := add_srcOf o t ht
  rw [h] at this
  exact this.symm

theorem blendStep_width (patch : Raster) (x y px py : Nat) (acc : Raster) :
    (blendStep patch x y px py acc).width = acc.width := by
  unfold blendStep putPixel
  split <;> rfl

theorem blendStep_height (patch : Raster) (x y px py : Nat) (acc : Raster) :
    (blendStep patch x y px py acc).height = acc.height := by
  unfold blendStep putPixel
  split <;> rfl

theorem foldl_blend_width (patch : Raster) (x y py : Nat) (l : List Nat) (acc : Raster) :
    ((l.foldl (fun a px => blendStep patch x y px py a) acc)).width = acc.width := by
  induction l generalizing acc with
  | nil => rfl
  | cons p rest ih =>
      rw [List.foldl_cons, ih, blendStep_width]

theorem foldl_blend_height (patch : Raster) (x y py : Nat) (l : List Nat) (acc : Raster) :
    ((l.foldl (fun a px => blendStep patch x y px py a) acc)).height = acc.height := by
  induction l generalizing acc with
  | nil => rfl
  | cons p rest ih =>
      rw [List.foldl_cons, ih, blendStep_height]

theorem rowStep_width (patch : Raster) (x y py : Nat) (acc : Raster) :
    (rowStep patch x y py acc).width = acc.width :=
  foldl_blend_width patch x y py (List.range patch.width) acc

theorem rowStep_height (patch : Raster) (x y py : Nat) (acc : Raster) :
    (rowStep patch x y py acc).height = acc.height :=
  foldl_blend_height patch x y py (List.range patch.width) acc


/-- Pointwise description of one `blendStep`: the pixel at `(tx, ty)` changes
exactly when it is the (in-bounds) wrapped target of patch pixel `(px, py)`. -/
theorem blendStep_pix (patch : Raster) (x y px py : Nat) (acc : Raster) (tx ty : Nat) :
    (blendStep patch x y px py acc).pix tx ty =
    if (x + px) % u32Mod < acc.width ∧ (y + py) % u32Mod < acc.height
        ∧ tx = (x + px) % u32Mod ∧ ty = (y + py) % u32Mod
    then alpha_blend (acc.pix tx ty) (patch.pix px py)
    else acc.pix tx ty := by
  unfold blendStep putPixel
  by_cases hb : (x + px) % u32Mod < acc.width ∧ (y + py) % u32Mod < acc.height
  · rw [if_pos hb]
    simp only
    by_cases he : tx = (x + px) % u32Mod ∧ ty = (y + py) % u32Mod
    · rw [if_pos he, if_pos ⟨hb.1, hb.2, he.1, he.2⟩, he.1, he.2]
    · rw [if_neg he, if_neg]
      intro hcond
      exact he ⟨hcond.2.2.1, hcond.2.2.2⟩
  · rw [if_neg hb, if_neg]
    intro hcond
    exact hb ⟨hcond.1, hcond.2.1⟩

/-- Characterization of one row of the compositing loop: folding `blendStep`
over source indices `px < n` at fixed `py` writes exactly the in-bounds pixels
of the (wrapped) row `ty = (y + py) % 2^32`, each blended from the original
accumulator value; all other pixels are untouched.  The hypothesis `n ≤ 2^32`
guarantees distinct `px` hit distinct targets, so each target is written at
most once. -/
theorem rowFold_pix (patch : Raster) (x y py : Nat) (n : Nat) (acc : Raster)
    (tx ty : Nat) (hn : n ≤ u32Mod) :
    ((List.range n).foldl (fun a px => blendStep patch x y px py a) acc).pix tx ty =
    if tx < acc.width ∧ ty < acc.height ∧ ty = (y + py) % u32Mod ∧ tx < u32Mod
        ∧ srcOf x tx < n
    then alpha_blend (acc.pix tx ty) (patch.pix (srcOf x tx) py)
    else acc.pix tx ty := by
  revert hn
  induction n generalizing tx ty with
  | zero =>
      intro hn
      simp
  | succ m ih =>
      intro hn
      have hm : m ≤ u32Mod := Nat.le_of_succ_le hn
      have hmlt : m < u32Mod := Nat.lt_of_succ_le hn
      have hW := foldl_blend_width patch x y py (List.range m) acc
      have hH := foldl_blend_height patch x y py (List.range m) acc
      have hsrc : srcOf x ((x + m) % u32Mod) = m := srcOf_add x m hmlt
      rw [List.range_succ, List.foldl_append, List.foldl_cons, List.foldl_nil,
        blendStep_pix, hW, hH, ih tx ty hm]
      by_cases hc : (x + m) % u32Mod < acc.width ∧ (y + py) % u32Mod < acc.height
          ∧ tx = (x + m) % u32Mod ∧ ty = (y + py) % u32Mod
      · rw [if_pos hc]
        have hsx : srcOf x tx = m := by rw [hc.2.2.1]; exact hsrc
        have hnot : ¬(tx < acc.width ∧ ty < acc.height ∧ ty = (y + py) % u32Mod
            ∧ tx < u32Mod ∧ srcOf x tx < m) := by
          intro hcond
          rw [hsx] at hcond
          exact Nat.lt_irrefl m hcond.2.2.2.2
        rw [if_neg hnot]
        have htxU : tx < u32Mod := by
          rw [hc.2.2.1]
          exact Nat.mod_lt _ (by simp [u32Mod])
        rw [if_pos ⟨by rw [hc.2.2.1]; exact hc.1, by rw [hc.2.2.2]; exact hc.2.1,
              hc.2.2.2, htxU, by rw [hsx]; exact Nat.lt_succ_self m⟩, hsx]
      · rw [if_neg hc]
        by_cases hg : tx < acc.width ∧ ty < acc.height ∧ ty = (y + py) % u32Mod
            ∧ tx < u32Mod ∧ srcOf x tx < m + 1
        · obtain ⟨g1, g2, g3, g4, g5⟩ := hg
          have hlt : srcOf x tx < m := by
            rcases Nat.lt_succ_iff_lt_or_eq.mp g5 with h | h
            · exact h
            · exact absurd ⟨srcOf_eq_imp x tx m g4 h ▸ g1,
                g3 ▸ g2, srcOf_eq_imp x tx m g4 h, g3⟩ hc
          rw [if_pos ⟨g1, g2, g3, g4, hlt⟩, if_pos ⟨g1, g2, g3, g4, Nat.lt_succ_of_lt hlt⟩]
        · rw [if_neg hg, if_neg]
          intro hcond
          exact hg ⟨hcond.1, hcond.2.1, hcond.2.2.1, hcond.2.2.2.1,
            Nat.lt_succ_of_lt hcond.2.2.2.2⟩

/-- Pointwise description of `rowStep` via `rowFold_pix`. -/
theorem rowStep_pix (patch : Raster) (x y py : Nat) (acc : Raster) (tx ty : Nat)
    (hw : patch.width ≤ u32Mod) :
    (rowStep patch x y py acc).pix tx ty =
    if tx < acc.width ∧ ty < acc.height ∧ ty = (y + py) % u32Mod ∧ tx < u32Mod
        ∧ srcOf x tx < patch.width
    then alpha_blend (acc.pix tx ty) (patch.pix (srcOf x tx) py)
    else acc.pix tx ty :=
  rowFold_pix patch x y py patch.width acc tx ty hw

theorem foldl_row_width (patch : Raster) (x y : Nat) (l : List Nat) (acc : Raster) :
    ((l.foldl (fun a py => rowStep patch x y py a) acc)).width = acc.width := by
  induction l generalizing acc with
  | nil => rfl
  | cons p rest ih =>
      rw [List.foldl_cons, ih, rowStep_width]

theorem foldl_row_height (patch : Raster) (x y : Nat) (l : List Nat) (acc : Raster) :
    ((l.foldl (fun a py => rowStep patch x y py a) acc)).height = acc.height := by
  induction l generalizing acc with
  | nil => rfl
  | cons p rest ih =>
      rw [List.foldl_cons, ih, rowStep_height]

/-- Characterization of the whole compositing loop folded over rows `py < m`:
the pixel at `(tx, ty)` is blended exactly when some patch pixel's wrapped
target is `(tx, ty)` and that target is in bounds; all other pixels keep their
original value. -/
theorem colFold_pix (patch : Raster) (x y : Nat) (m : Nat) (acc : Raster)
    (tx ty : Nat) (hm : m ≤ u32Mod) (hw : patch.width ≤ u32Mod) :
    ((List.range m).foldl (fun a py => rowStep patch x y py a) acc).pix tx ty =
    if tx < acc.width ∧ ty < acc.height ∧ tx < u32Mod ∧ ty < u32Mod
        ∧ srcOf x tx < patch.width ∧ srcOf y ty < m
    then alpha_blend (acc.pix tx ty) (patch.pix (srcOf x tx) (srcOf y ty))
    else acc.pix tx ty := by
  revert hm
  induction m generalizing tx ty with
  | zero =>
      intro hm
      simp
  | succ k ih =>
      intro hm
      have hk : k ≤ u32Mod := Nat.le_of_succ_le hm
      have hklt : k < u32Mod := Nat.lt_of_succ_le hm
      have hW := foldl_row_width patch x y (List.range k) acc
      have hH := foldl_row_height patch x y (List.range k) acc
      have hsrc : srcOf y ((y + k) % u32Mod) = k := srcOf_add y k hklt
      rw [List.range_succ, List.foldl_append, List.foldl_cons, List.foldl_nil,
        rowStep_pix patch x y k _ tx ty hw, hW, hH, ih tx ty hk]
      by_cases hc : tx < acc.width ∧ ty < acc.height ∧ ty = (y + k) % u32Mod
          ∧ tx < u32Mod ∧ srcOf x tx < patch.width
      · rw [if_pos hc]
        have hsy : srcOf y ty = k := by rw [hc.2.2.1]; exact hsrc
        have hnot : ¬(tx < acc.width ∧ ty < acc.height ∧ tx < u32Mod ∧ ty < u32Mod
            ∧ srcOf x tx < patch.width ∧ srcOf y ty < k) := by
          intro hcond
          rw [hsy] at hcond
          exact Nat.lt_irrefl k hcond.2.2.2.2.2
        rw [if_neg hnot]
        have htyU : ty < u32Mod := by
          rw [hc.2.2.1]
          exact Nat.mod_lt _ (by simp [u32Mod])
        rw [if_pos ⟨hc.1, hc.2.1, hc.2.2.2.1, htyU, hc.2.2.2.2,
              by rw [hsy]; exact Nat.lt_succ_self k⟩, hsy]
      · rw [if_neg hc]
        by_cases hg : tx < acc.width ∧ ty < acc.height ∧ tx < u32Mod ∧ ty < u32Mod
            ∧ srcOf x tx < patch.width ∧ srcOf y ty < k + 1
        · obtain ⟨g1, g2, g3, g4, g5, g6⟩ := hg
          have hlt : srcOf y ty < k := by
            rcases Nat.lt_succ_iff_lt_or_eq.mp g6 with h | h
            · exact h
            · exact absurd ⟨g1, g2, srcOf_eq_imp y ty k g4 h, g3, g5⟩ hc
          rw [if_pos ⟨g1, g2, g3, g4, g5, hlt⟩,
            if_pos ⟨g1, g2, g3, g4, g5, Nat.lt_succ_of_lt hlt⟩]
        · rw [if_neg hg, if_neg]
          intro hcond
          exact hg ⟨hcond.1, hcond.2.1, hcond.2.2.1, hcond.2.2.2.1, hcond.2.2.2.2.1,
            Nat.lt_succ_of_lt hcond.2.2.2.2.2⟩

/-- Master characterization of the compositing loop with full wrapping `u32`
semantics: `(tx, ty)` is blended exactly when it is the (in-bounds) wrapped
target of the unique patch pixel `(srcOf x tx, srcOf y ty)`. -/
theorem compositeLoop_pix (base patch : Raster) (x y tx ty : Nat)
    (hw : patch.width ≤ u32Mod) (hh : patch.height ≤ u32Mod) :
    (compositeLoop base patch x y).pix tx ty =
    if tx < base.width ∧ ty < base.height ∧ tx < u32Mod ∧ ty < u32Mod
        ∧ srcOf x tx < patch.width ∧ srcOf y ty < patch.height
    then alpha_blend (base.pix tx ty) (patch.pix (srcOf x tx) (srcOf y ty))
    else base.pix tx ty :=
  colFold_pix patch x y patch.height base tx ty hh hw

theorem srcOf_in_range (o t d : Nat) (ho : o < u32Mod) (ht : t < u32Mod)
    (hd : o + d ≤ u32Mod) : srcOf o t < d ↔ (o ≤ t ∧ t < o + d) := by
  simp only [srcOf, u32Mod] at *
  omega

theorem srcOf_sub (o t : Nat) (ho : o < u32Mod) (ht : t < u32Mod) (hle : o ≤ t) :
    srcOf o t = t - o := by
  simp only [srcOf, u32Mod] at *
  omega

/-- Characterization of the compositing loop for offsets that cause no `u32`
overflow (`x + patch.width ≤ 2^32` and `y + patch.height ≤ 2^32`): an
in-bounds base pixel is blended exactly when it lies in the patch rectangle
`[x, x + width) × [y, y + height)`, from patch pixel `(tx - x, ty - y)`; every
other in-bounds base pixel is untouched. -/
theorem compositeLoop_pix_in_range (base patch : Raster) (x y tx ty : Nat)
    (hbw : base.width ≤ u32Mod) (hbh : base.height ≤ u32Mod)
    (hx : x < u32Mod) (hy : y < u32Mod)
    (hxw : x + patch.width ≤ u32Mod) (hyh : y + patch.height ≤ u32Mod)
    (htx : tx < base.width) (hty : ty < base.height) :
    (compositeLoop base patch x y).pix tx ty =
    if x ≤ tx ∧ tx < x + patch.width ∧ y ≤ ty ∧ ty < y + patch.height
    then alpha_blend (base.pix tx ty) (patch.pix (tx - x) (ty - y))
    else base.pix tx ty := by
  have htxU : tx < u32Mod := Nat.lt_of_lt_of_le htx hbw
  have htyU : ty < u32Mod := Nat.lt_of_lt_of_le hty hbh
  have hpw : patch.width ≤ u32Mod := le_trans (Nat.le_add_left _ _) hxw
  have hph : patch.height ≤ u32Mod := le_trans (Nat.le_add_left _ _) hyh
  rw [compositeLoop_pix base patch x y tx ty hpw hph]
  by_cases hcov : x ≤ tx ∧ tx < x + patch.width ∧ y ≤ ty ∧ ty < y + patch.height
  · have hsx := (srcOf_in_range x tx patch.width hx htxU hxw).mpr ⟨hcov.1, hcov.2.1⟩
    have hsy := (srcOf_in_range y ty patch.height hy htyU hyh).mpr
      ⟨hcov.2.2.1, hcov.2.2.2⟩
    rw [if_pos ⟨htx, hty, htxU, htyU, hsx, hsy⟩, if_pos hcov,
      srcOf_sub x tx hx htxU hcov.1, srcOf_sub y ty hy htyU hcov.2.2.1]
  · rw [if_neg, if_neg hcov]
    intro hcond
    apply hcov
    have h1 := (srcOf_in_range x tx patch.width hx htxU hxw).mp hcond.2.2.2.2.1
    have h2 := (srcOf_in_range y ty patch.height hy htyU hyh).mp hcond.2.2.2.2.2
    exact ⟨h1.1, h1.2, h2.1, h2.2⟩

/-- Blending a fully opaque overlay returns the overlay pixel unchanged. -/
theorem alpha_blend_opaque (b : Rgba) (o : Rgba) (ho : o.a = 255) :
    alpha_blend b o = o := by
  cases o with
  | mk r g b' a =>
      simp only [Rgba.mk.injEq] at ho ⊢
      subst ho
      simp [alpha_blend, blendChannel, Nat.sub_self, Nat.mul_div_cancel]

/-- Base raster for the C1 counterexample: 2×1, an opaque pixel at (0,0) and a
fully transparent pixel at (1,0).  Decodable from a real RGBA PNG. -/
def cexBase1 : Raster :=
  { width := 2, height := 1,
    pix := fun u _ => if u = 0 then ⟨1, 2, 3, 255⟩ else ⟨9, 9, 9, 0⟩ }

/-- Patch raster for the C1 counterexample: a single half-transparent pixel. -/
def cexPatch1 : Raster :=
  { width := 1, height := 1, pix := fun _ _ => ⟨5, 6, 7, 128⟩ }

/-- C1 (counterexample): the claim "every pixel of the encoded result has
alpha 255 ... including base pixels not covered by the patch" is false.  The
compositing loop only writes patch-covered target pixels, so compositing a
1×1 patch at (0,0) (target size 0×0, so the resize is skipped) onto a 2×1
base whose pixel (1,0) has alpha 0 leaves pixel (1,0) with alpha 0, and that
alpha survives PNG re-encoding. -/
theorem c1_counterexample :
    ((composite_patch cexBase1 cexPatch1 0 0 0 0).pix 1 0).a ≠ 255 := by
  decide

/-- C1 (amended): every pixel of the result that is covered by the patch
rectangle has alpha 255, regardless of the alpha values of the base and the
patch; base pixels not covered by the patch keep their original alpha.  Here
`patch` is the (possibly resized) patch raster entering the per-pixel loop of
`composite_patch`, and the offset does not overflow `u32` arithmetic. -/
theorem c1_amended_alpha_opaque (base patch : Raster) (x y tx ty : Nat)
    (hbw : base.width ≤ u32Mod) (hbh : base.height ≤ u32Mod)
    (hx : x < u32Mod) (hy : y < u32Mod)
    (hxw : x + patch.width ≤ u32Mod) (hyh : y + patch.height ≤ u32Mod)
    (htx : tx < base.width) (hty : ty < base.height) :
    ((compositeLoop base patch x y).pix tx ty).a =
    if x ≤ tx ∧ tx < x + patch.width ∧ y ≤ ty ∧ ty < y + patch.height
    then 255
    else (base.pix tx ty).a := by
  rw [compositeLoop_pix_in_range base patch x y tx ty hbw hbh hx hy hxw hyh htx hty]
  by_cases hcov : x ≤ tx ∧ tx < x + patch.width ∧ y ≤ ty ∧ ty < y + patch.height
  · rw [if_pos hcov, if_pos hcov]
    rfl
  · rw [if_neg hcov, if_neg hcov]

/-- Witness for the amended C1 at a concrete input: the covered pixel (0,0)
of the counterexample rasters comes out with alpha 255. -/
theorem c1_amended_alpha_opaque_witness :
    ((compositeLoop cexBase1 cexPatch1 0 0).pix 0 0).a = 255 := by
  have h := c1_amended_alpha_opaque cexBase1 cexPatch1 0 0 0 0 (by decide) (by decide)
    (by decide) (by decide) (by decide) (by decide) (by decide) (by decide)
  rw [h]
  decide

/-- Base raster for the C2 counterexample: a single opaque pixel. -/
def cexBase2 : Raster :=
  { width := 1, height := 1, pix := fun _ _ => ⟨1, 2, 3, 255⟩ }

/-- Patch raster for the C2 counterexample: 2×1, fully opaque. -/
def cexPatch2 : Raster :=
  { width := 2, height := 1, pix := fun _ _ => ⟨200, 200, 200, 255⟩ }

/-- C2 (counterexample): the claim "each patch pixel whose absolute target
coordinate (x+px, y+py) lies outside the base raster is silently dropped
without wraparound" is false at offset x = 2^32 - 1.  Patch pixel (1,0) has
absolute target coordinate (2^32, 0), far outside the 1×1 base, yet the `u32`
addition `request.x + px` wraps to 0 (release-build semantics; a debug build
panics on the same input), so the base pixel (0,0) is overwritten. -/
theorem c2_counterexample :
    (composite_patch cexBase2 cexPatch2 4294967295 0 0 0).pix 0 0 ≠
      cexBase2.pix 0 0 := by
  decide

/-- C2 (amended): for every offset (x,y) whose coordinate arithmetic does not
overflow `u32` (x + patch.width ≤ 2^32 and y + patch.height ≤ 2^32), the
operation is total and clips correctly: each in-bounds target pixel covered by
the patch is updated by the alpha-blend rule from the corresponding patch
pixel, and every other base pixel — in particular every target outside the
base bounds — is left untouched.  When the addition does overflow, the target
coordinate instead wraps modulo 2^32 (see `c2_counterexample`).  Here `patch`
is the (possibly resized) patch raster entering the per-pixel loop. -/
theorem c2_amended_clipping (base patch : Raster) (x y tx ty : Nat)
    (hbw : base.width ≤ u32Mod) (hbh : base.height ≤ u32Mod)
    (hx : x < u32Mod) (hy : y < u32Mod)
    (hxw : x + patch.width ≤ u32Mod) (hyh : y + patch.height ≤ u32Mod)
    (htx : tx < base.width) (hty : ty < base.height) :
    (compositeLoop base patch x y).pix tx ty =
    if x ≤ tx ∧ tx < x + patch.width ∧ y ≤ ty ∧ ty < y + patch.height
    then alpha_blend (base.pix tx ty) (patch.pix (tx - x) (ty - y))
    else base.pix tx ty :=
  compositeLoop_pix_in_range base patch x y tx ty hbw hbh hx hy hxw hyh htx hty

/-- Witness for the amended C2 at a concrete input: with a 2×1 patch at
offset (0,0) on a 1×1 base, the in-bounds pixel (0,0) is blended (patch pixel
(1,0) falls outside and is dropped, which is visible in the result equalling
the blend of the single covered pixel). -/
theorem c2_amended_clipping_witness :
    (compositeLoop cexBase2 cexPatch2 0 0).pix 0 0 =
      alpha_blend (cexBase2.pix 0 0) (cexPatch2.pix 0 0) := by
  have h := c2_amended_clipping cexBase2 cexPatch2 0 0 0 0 (by decide) (by decide)
    (by decide) (by decide) (by decide) (by decide) (by decide) (by decide)
  rw [h]
  decide

/-- Base raster for the C7 witness: 20×20 with varying colours and a
non-opaque alpha, to exercise the claim's "all other pixels equal the
original base". -/
def wBase7 : Raster :=
  { width := 20, height := 20, pix := fun u v => ⟨u, v, 3, 100⟩ }

/-- Patch raster for the C7 witness: 10×10, fully opaque, varying colours. -/
def wPatch7 : Raster :=
  { width := 10, height := 10, pix := fun u v => ⟨200 + u, v, 7, 255⟩ }

/-- C7: compositing a fully opaque 10×10 patch at offset (5,5) with target
size 10×10 onto a 20×20 base yields exactly the patch's pixel values on
[5,15)×[5,15) and the original base values everywhere else.  The target size
equals the patch's native size, so (per spec section 4.5 step 2, which models
the external Lanczos3 resampler) the resize leaves the patch as-is; a fully
opaque overlay blends to itself and the forced alpha 255 equals its own. -/
theorem c7_opaque_patch_composite (base patch : Raster) (tx ty : Nat)
    (hbw : base.width = 20) (hbh : base.height = 20)
    (hpw : patch.width = 10) (hph : patch.height = 10)
    (hop : ∀ px py, px < 10 → py < 10 → (patch.pix px py).a = 255)
    (htx : tx < 20) (hty : ty < 20) :
    (composite_patch base patch 5 5 10 10).pix tx ty =
    if 5 ≤ tx ∧ tx < 15 ∧ 5 ≤ ty ∧ ty < 15
    then patch.pix (tx - 5) (ty - 5)
    else base.pix tx ty := by
  unfold composite_patch
  have hres : (if 0 < 10 ∧ 0 < 10 then resize_exact patch 10 10 else patch) = patch := by
    rw [if_pos ⟨by norm_num, by norm_num⟩]
    unfold resize_exact
    rw [if_pos ⟨hpw.symm, hph.symm⟩]
  rw [hres]
  have e1 : (5 : Nat) + patch.width = 15 := by rw [hpw]
  have e2 : (5 : Nat) + patch.height = 15 := by rw [hph]
  rw [compositeLoop_pix_in_range base patch 5 5 tx ty
      (by rw [hbw]; norm_num [u32Mod]) (by rw [hbh]; norm_num [u32Mod])
      (by norm_num [u32Mod]) (by norm_num [u32Mod])
      (by rw [hpw]; norm_num [u32Mod]) (by rw [hph]; norm_num [u32Mod])
      (by rw [hbw]; exact htx) (by rw [hbh]; exact hty), e1, e2]
  by_cases hcov : 5 ≤ tx ∧ tx < 15 ∧ 5 ≤ ty ∧ ty < 15
  · rw [if_pos hcov, if_pos hcov, alpha_blend_opaque]
    exact hop (tx - 5) (ty - 5) (by omega) (by omega)
  · rw [if_neg hcov, if_neg hcov]

/-- Witness for C7 at concrete input: pixel (7,9) inside the patch rectangle
equals the patch pixel (2,4); pixel (0,0) outside it equals the base. -/
theorem c7_opaque_patch_composite_witness :
    (composite_patch wBase7 wPatch7 5 5 10 10).pix 7 9 = wPatch7.pix 2 4 ∧
    (composite_patch wBase7 wPatch7 5 5 10 10).pix 0 0 = wBase7.pix 0 0 := by
  constructor
  · have h := c7_opaque_patch_composite wBase7 wPatch7 7 9 rfl rfl rfl rfl
      (fun px py hpx hpy => rfl) (by norm_num) (by norm_num)
    rw [h]
    decide
  · have h := c7_opaque_patch_composite wBase7 wPatch7 0 0 rfl rfl rfl rfl
      (fun px py hpx hpy => rfl) (by norm_num) (by norm_num)
    rw [h]
    decide

/-- Model of the `f64` values arising in `calculate_aspect_ratio`: a finite
value (represented exactly as a rational), positive infinity (from `w/0` with
`w > 0`), or NaN (from `0/0`).  `f64` division is correctly rounded, so two
divisions with the same real quotient produce the same `f64`; the exact
rational stands in for that common value. -/
inductive F64 where
  | nan
  | posInf
  | fin (q : ℚ)
deriving DecidableEq

/-- The value of `f64::MAX`, `(2^53 - 1) * 2^971`, the initializer of
`min_diff` in `calculate_aspect_ratio` (api.rs line 129). -/
def f64MAX : ℚ := (2 ^ 53 - 1) * 2 ^ 971

/-- Model of `width as f64 / height as f64` (api.rs line 111): `u32` values
convert to `f64` exactly; division by zero yields +infinity (NaN for 0/0). -/
def fdiv (w h : Nat) : F64 :=
  if h = 0 then (if w = 0 then F64.nan else F64.posInf) else F64.fin ((w : ℚ) / (h : ℚ))

/-- Model of `(ratio - r).abs()` (api.rs line 132): NaN and infinity absorb,
finite values subtract exactly. -/
def fabsSub (x : F64) (r : ℚ) : F64 :=
  match x with
  | F64.nan => F64.nan
  | F64.posInf => F64.posInf
  | F64.fin q => F64.fin |q - r|

/-- Model of the `f64` `<` comparison: any comparison with NaN is false,
`inf < y` is false for the values arising here, and `finite < inf` is true. -/
def flt (a b : F64) : Bool :=
  match a, b with
  | F64.nan, _ => false
  | _, F64.nan => false
  | F64.posInf, _ => false
  | F64.fin _, F64.posInf => true
  | F64.fin p, F64.fin q => decide (p < q)

/-- The fixed candidate table of `calculate_aspect_ratio` (api.rs lines
114-125), in source order; the constants `21.0/9.0`, ... are modelled as exact
rationals. -/
def ratioTable : List (ℚ × String) :=
  [(21 / 9, "21:9"), (16 / 9, "16:9"), (5 / 4, "5:4"), (4 / 3, "4:3"),
   (3 / 2, "3:2"), (1, "1:1"), (4 / 5, "4:5"), (3 / 4, "3:4"),
   (2 / 3, "2:3"), (9 / 16, "9:16")]

/-- The selection loop of `calculate_aspect_ratio` (api.rs lines 127-137):
starting from `closest = "1:1"` and `min_diff = f64::MAX`, take each candidate
whose absolute difference from the ratio is strictly below the minimum so far. -/
def selectClosest (r0 : F64) : String :=
  (ratioTable.foldl
    (fun acc rn => if flt (fabsSub r0 rn.1) acc.2 then (rn.2, fabsSub r0 rn.1) else acc)
    ("1:1", F64.fin f64MAX)).1

/-- Shallow embedding of `calculate_aspect_ratio` (api.rs lines 110-141):
compute `width / height` as `f64` and return the label of the closest entry
of the fixed candidate table. -/
def calculate_aspect_ratio (width height : Nat) : String :=
  selectClosest (fdiv width height)

/-- C9: the aspect-ratio resolver is scale-invariant: scaling both dimensions
by a positive integer `k` (keeping them representable as `u32`) leaves the
selected label unchanged, because the `f64` quotient itself is unchanged
(correct rounding of the identical real quotient). -/
theorem c9_aspect_ratio_scale_invariant (w h k : Nat) (hw : 0 < w) (hh : 0 < h)
    (hk : 0 < k) (hkw : k * w < u32Mod) (hkh : k * h < u32Mod) :
    calculate_aspect_ratio w h = calculate_aspect_ratio (k * w) (k * h) := by
  unfold calculate_aspect_ratio
  have hh0 : h ≠ 0 := Nat.pos_iff_ne_zero.mp hh
  have hkh0 : k * h ≠ 0 := Nat.mul_ne_zero (Nat.pos_iff_ne_zero.mp hk) hh0
  have hq : fdiv w h = fdiv (k * w) (k * h) := by
    unfold fdiv
    rw [if_neg hh0, if_neg hkh0]
    have hkQ : (k : ℚ) ≠ 0 := Nat.cast_ne_zero.mpr (Nat.pos_iff_ne_zero.mp hk)
    push_cast
    rw [mul_div_mul_left _ _ hkQ]
  rw [hq]

/-- Witness for C9 at a concrete input: 2×3 and 10×15 resolve identically. -/
theorem c9_aspect_ratio_scale_invariant_witness :
    calculate_aspect_ratio 2 3 = calculate_aspect_ratio 10 15 :=
  c9_aspect_ratio_scale_invariant 2 3 5 (by norm_num) (by norm_num) (by norm_num)
    (by norm_num [u32Mod]) (by norm_num [u32Mod])

theorem foldl_sel_fst (l : List (ℚ × String)) (r0 : F64) (acc : String × F64) :
    (l.foldl
      (fun acc rn => if flt (fabsSub r0 rn.1) acc.2 then (rn.2, fabsSub r0 rn.1) else acc)
      acc).1 = acc.1 ∨
    (l.foldl
      (fun acc rn => if flt (fabsSub r0 rn.1) acc.2 then (rn.2, fabsSub r0 rn.1) else acc)
      acc).1 ∈ l.map Prod.snd := by
  induction l generalizing acc with
  | nil =>
      left
      rfl
  | cons p rest ih =>
      rw [List.foldl_cons, List.map_cons]
      by_cases hc : flt (fabsSub r0 p.1) acc.2 = true
      · rw [if_pos hc]
        rcases ih (p.2, fabsSub r0 p.1) with h | h
        · right
          rw [h]
          exact List.mem_cons_self _ _
        · right
          exact List.mem_cons_of_mem _ h
      · rw [if_neg hc]
        rcases ih acc with h | h
        · left
          exact h
        · right
          exact List.mem_cons_of_mem _ h

theorem foldl_fixed {α β : Type} (f : β → α → β) (l : List α) (acc : β)
    (hf : ∀ b a, f b a = b) : l.foldl f acc = acc := by
  induction l generalizing acc with
  | nil => rfl
  | cons p rest ih =>
      rw [List.foldl_cons, hf, ih]

theorem flt_fabsSub_nan (r : ℚ) (b : F64) : flt (fabsSub F64.nan r) b = false := by
  cases b <;> rfl

theorem flt_fabsSub_posInf (r : ℚ) (b : F64) : flt (fabsSub F64.posInf r) b = false := by
  cases b <;> rfl

/-- C10: `calculate_aspect_ratio` is total and always returns one of the ten
supported labels; for degenerate inputs with height 0 (ratio +infinity or
NaN) every comparison against `min_diff` is false — no difference compares
strictly below the `f64::MAX` initializer — so the fallback "1:1" is
returned. -/
theorem c10_aspect_ratio_total_fallback (w h : Nat) :
    calculate_aspect_ratio w h ∈ ratioTable.map Prod.snd ∧
    (h = 0 → calculate_aspect_ratio w h = "1:1") := by
  constructor
  · rcases foldl_sel_fst ratioTable (fdiv w h) ("1:1", F64.fin f64MAX) with h1 | h1
    · unfold calculate_aspect_ratio selectClosest
      rw [h1]
      decide
    · exact h1
  · intro h0
    unfold calculate_aspect_ratio selectClosest fdiv
    rw [if_pos h0]
    by_cases hw0 : w = 0
    · rw [if_pos hw0, foldl_fixed]
      intro b rn
      rw [flt_fabsSub_nan, if_neg]
      simp
    · rw [if_neg hw0, foldl_fixed]
      intro b rn
      rw [flt_fabsSub_posInf, if_neg]
      simp

/-- Witness for C10 at a concrete input: width 7, height 0 yields "1:1", one
of the supported labels. -/
theorem c10_aspect_ratio_total_fallback_witness :
    calculate_aspect_ratio 7 0 = "1:1" ∧
    calculate_aspect_ratio 7 0 ∈ ratioTable.map Prod.snd :=
  ⟨(c10_aspect_ratio_total_fallback 7 0).2 rfl,
   (c10_aspect_ratio_total_fallback 7 0).1⟩

/-- One request payload segment (api.rs lines 58-63): either a text segment or
an inline-data segment carrying a mime type and base64 data. -/
inductive Part where
  | text (t : String)
  | inlineData (mime_type : String) (data : String)
deriving DecidableEq

/-- The no-references prompt template of `generate_fill` (api.rs lines
245-250), with the caller's prompt spliced in. -/
def promptTextNoRefs (prompt : String) : String :=
  "Edit this image. The second image is a mask where white areas should be replaced. In the white masked areas, generate: "
    ++ prompt
    ++ ". Keep the black areas unchanged. Match the style and lighting of the original image."

/-- The with-references prompt template of `generate_fill` (api.rs lines
252-259), with the caller's prompt spliced in. -/
def promptTextWithRefs (prompt : String) : String :=
  "Edit the first image. The second image is a mask where white areas should be replaced. The additional images are references to help guide the generation. In the white masked areas, generate: "
    ++ prompt
    ++ ". Use the reference images as context for the generation. Keep the black areas unchanged."

/-- Prompt text selection of `generate_fill` (api.rs lines 244-260): the
template depends on whether reference images are present. -/
def buildPromptText (prompt : String) (refs : List String) : String :=
  if refs.isEmpty then promptTextNoRefs prompt else promptTextWithRefs prompt

/-- The `parts` array built by `generate_fill` (api.rs lines 214-263): source
image, mask image, each reference image in input order (all tagged
"image/png"), then the instructional text segment pushed last.  No validation
of the base64 payloads is performed. -/
def buildParts (prompt image mask : String) (refs : List String) : List Part :=
  ([Part.inlineData "image/png" image, Part.inlineData "image/png" mask]
      ++ refs.map (fun r => Part.inlineData "image/png" r))
    ++ [Part.text (buildPromptText prompt refs)]

/-- C5: for a call with source, mask and n reference images the parts array
has exactly n+3 segments in the order source, mask, references in input
order, then the text segment at the last index. -/
theorem c5_segment_order (prompt image mask : String) (refs : List String) :
    (buildParts prompt image mask refs).length = refs.length + 3 ∧
    (buildParts prompt image mask refs)[0]? = some (Part.inlineData "image/png" image) ∧
    (buildParts prompt image mask refs)[1]? = some (Part.inlineData "image/png" mask) ∧
    (∀ i, i < refs.length →
      (buildParts prompt image mask refs)[i + 2]? =
        (refs[i]?).map (fun r => Part.inlineData "image/png" r)) ∧
    (buildParts prompt image mask refs)[refs.length + 2]? =
      some (Part.text (buildPromptText prompt refs)) := by
  refine ⟨?_, ?_, ?_, ?_, ?_⟩
  · simp only [buildParts, List.length_append, List.length_map, List.length_cons,
      List.length_nil]
    omega
  · simp [buildParts]
  · simp [buildParts]
  · intro i hi
    simp only [buildParts, List.cons_append, List.nil_append, List.getElem?_cons_succ]
    rw [List.getElem?_append, if_pos (by simpa using hi), List.getElem?_map]
  · simp only [buildParts, List.cons_append, List.nil_append, List.getElem?_cons_succ]
    rw [List.getElem?_append, if_neg (by simp)]
    simp

/-- Witness for C5 at a concrete input with 2 reference images: the order is
source, mask, ref1, ref2, text. -/
theorem c5_segment_order_witness :
    (buildParts "p" "SRC" "MSK" ["R1", "R2"]).length = 5 ∧
    (buildParts "p" "SRC" "MSK" ["R1", "R2"])[3]? =
      some (Part.inlineData "image/png" "R2") ∧
    (buildParts "p" "SRC" "MSK" ["R1", "R2"])[4]? =
      some (Part.text (buildPromptText "p" ["R1", "R2"])) := by
  have h := c5_segment_order "p" "SRC" "MSK" ["R1", "R2"]
  refine ⟨h.1, ?_, ?_⟩
  · have := h.2.2.2.1 1 (by norm_num)
    simpa using this
  · simpa using h.2.2.2.2

/-- Modelled from the spec: validity for the external base64 crate's STANDARD
engine (canonically padded base64 over A-Z, a-z, 0-9, +, /), which is not
part of this repository.  The checker is conservative: any string it rejects
(wrong alphabet, length not a multiple of 4, more than two trailing pads)
fails real STANDARD decoding. -/
def isBase64Char (c : Char) : Bool :=
  (65 ≤ c.toNat && c.toNat ≤ 90) || (97 ≤ c.toNat && c.toNat ≤ 122) ||
  (48 ≤ c.toNat && c.toNat ≤ 57) || c == '+' || c == '/'

/-- Modelled from the spec: see `isBase64Char`.  Splits trailing padding and
checks the remaining characters against the base64 alphabet. -/
def isValidBase64 (s : String) : Bool :=
  decide (s.toList.length % 4 = 0) &&
  decide (s.toList.length - ((s.toList.reverse.dropWhile (fun c => c == '=')).reverse).length ≤ 2) &&
  ((s.toList.reverse.dropWhile (fun c => c == '=')).reverse).all isBase64Char

/-- C6 (counterexample): the claim that malformed base64 in an image segment
is rejected at build time with a typed InvalidImageData error is false: the
source `ApiError` enum (api.rs lines 8-25) has no such variant and
`generate_fill` performs no base64 validation — the malformed string "!!!"
is embedded verbatim and the request builds successfully. -/
theorem c6_counterexample :
    isValidBase64 "!!!" = false ∧
    buildParts "p" "!!!" "m" [] =
      [Part.inlineData "image/png" "!!!", Part.inlineData "image/png" "m",
       Part.text (buildPromptText "p" [])] := by
  constructor
  · decide
  · rfl

/-- C6 (amended): the request builder performs no base64 validation and
defines no InvalidImageData error: every image segment, malformed or not, is
embedded verbatim and the build always succeeds (malformed source base64 only
causes the aspect-ratio probe `get_image_dimensions` to return None, silently
omitting the aspect-ratio hint). -/
theorem c6_amended_no_validation (prompt image mask : String) (refs : List String)
    (him : isValidBase64 image = false) :
    buildParts prompt image mask refs =
      Part.inlineData "image/png" image :: Part.inlineData "image/png" mask ::
        (refs.map (fun r => Part.inlineData "image/png" r) ++
          [Part.text (buildPromptText prompt refs)]) := by
  simp [buildParts]

/-- Witness for the amended C6 at a concrete malformed input. -/
theorem c6_amended_no_validation_witness :
    buildParts "p2" "%%" "m2" ["r"] =
      Part.inlineData "image/png" "%%" :: Part.inlineData "image/png" "m2" ::
        ([Part.inlineData "image/png" "r"] ++ [Part.text (buildPromptText "p2" ["r"])]) := by
  have h := c6_amended_no_validation "p2" "%%" "m2" ["r"] (by decide)
  rw [h]
  rfl

/-- Model of Rust `str::starts_with` (and Lean's `String.startsWith`) as a
structurally recursive character-prefix test, so that concrete instances
evaluate inside the kernel.  For UTF-8 strings the byte-prefix and
character-prefix readings coincide. -/
def strStartsWith (s pre : String) : Bool := pre.toList.isPrefixOf s.toList

/-- Response inline data (api.rs lines 167-172): a declared mime type and the
base64 image payload. -/
structure ResponseInlineData where
  mime_type : String
  data : String
deriving DecidableEq

/-- One response segment (api.rs lines 160-165): optional inline data and
optional text. -/
structure ResponsePart where
  inline_data : Option ResponseInlineData
  text : Option String
deriving DecidableEq

/-- Candidate content (api.rs lines 155-158). -/
structure CandidateContent where
  parts : List ResponsePart
deriving DecidableEq

/-- One response candidate (api.rs lines 150-153). -/
structure Candidate where
  content : CandidateContent
deriving DecidableEq

/-- The backend error object (api.rs lines 174-177). -/
structure GeminiError where
  message : String
deriving DecidableEq

/-- The decoded response shape (api.rs lines 144-148): both `candidates` and
`error` are optional. -/
structure GeminiResponse where
  candidates : Option (List Candidate)
  error : Option GeminiError
deriving DecidableEq

/-- The source `ApiError` enum (api.rs lines 8-25).  `requestFailed` carries
the transport error display string; `parseError` carries the serde error
display string and the raw-body excerpt bytes that the source formats into
one message (the error display, then ": ", then the excerpt).  Note there is
no InvalidImageData variant in the source. -/
inductive ApiError where
  | requestFailed (msg : String)
  | apiKeyMissing
  | apiError (msg : String)
  | parseError (serdeMsg : String) (excerpt : List Nat)
  | noImageGenerated
deriving DecidableEq

/-- Result of the response-processing stage: a returned base64 image string,
a typed error, or a Rust panic (reachable through string slicing at a
non-character boundary). -/
inductive Outcome where
  | panics
  | err (e : ApiError)
  | ok (data : String)
deriving DecidableEq

/-- The inner scan of one candidate's parts (api.rs lines 321-333): the first
part carrying inline data whose mime type starts with "image/" returns its
data; text-only parts and non-image inline data are skipped. -/
def findImageInParts (parts : List ResponsePart) : Option String :=
  match parts with
  | [] => none
  | p :: rest =>
    match p.inline_data with
    | some d =>
        if strStartsWith d.mime_type "image/" then some d.data
        else findImageInParts rest
    | none => findImageInParts rest

/-- The outer scan over candidates (api.rs lines 319-334): candidates are
visited in order and the first image found is returned immediately. -/
def findImage (cands : List Candidate) : Option String :=
  match cands with
  | [] => none
  | c :: rest =>
    match findImageInParts c.content.parts with
    | some d => some d
    | none => findImage rest

/-- Rust `str::is_char_boundary` over the body's UTF-8 bytes: index 0 is
always a boundary, an index inside the string is a boundary when the byte
there is not a UTF-8 continuation byte (not in 128..191), and the index just
past the end is a boundary. -/
def isCharBoundary (bytes : List Nat) (i : Nat) : Bool :=
  if i = 0 then true
  else
    match bytes[i]? with
    | some b => b < 128 || 192 ≤ b
    | none => decide (i = bytes.length)

/-- The response-processing stage of `generate_fill` (api.rs lines 302-338).
The network transport and serde_json parse are external; `parsed` is the
parse outcome carrying either the decoded `GeminiResponse` or the serde error
display string, and `body` is the raw response text as UTF-8 bytes.  On a
parse failure the source builds the error message from the slice of the body
up to byte `min(len, 200)`, which panics when that index is not a character
boundary (`Outcome.panics`); otherwise the stage checks `error`, then
`candidates`, then scans for the first image part.  Logging calls are no-ops
(release build, no logger installed). -/
def processResponse (parsed : Except String GeminiResponse) (body : List Nat) : Outcome :=
  match parsed with
  | Except.error e =>
      if isCharBoundary body (min body.length 200) then
        Outcome.err (ApiError.parseError e (body.take (min body.length 200)))
      else Outcome.panics
  | Except.ok resp =>
      match resp.error with
      | some ge => Outcome.err (ApiError.apiError ge.message)
      | none =>
        match resp.candidates with
        | none => Outcome.err ApiError.noImageGenerated
        | some cands =>
          match findImage cands with
          | some d => Outcome.ok d
          | none => Outcome.err ApiError.noImageGenerated

/-- The image-bearing data of one part, if any: the spec-side selector used
to state the first-match policy independently of the source's loop shape. -/
def imagePartData (p : ResponsePart) : Option String :=
  match p.inline_data with
  | some d => if strStartsWith d.mime_type "image/" then some d.data else none
  | none => none

/-- Spec-side formulation of the extraction policy (spec section 4.4 step 3):
flatten all candidates' parts in order and take the head of the image-bearing
data, i.e. the first segment across the candidate-major, segment-minor order
whose mime type begins with "image/". -/
def firstImageData (cands : List Candidate) : Option String :=
  ((cands.map (fun c => c.content.parts)).flatten.filterMap imagePartData).head?

theorem findImageInParts_eq (parts : List ResponsePart) :
    findImageInParts parts = (parts.filterMap imagePartData).head? := by
  induction parts with
  | nil => rfl
  | cons p rest ih =>
      cases p with
      | mk idata txt =>
          cases idata with
          | none =>
              simp only [findImageInParts, imagePartData, List.filterMap_cons]
              exact ih
          | some d =>
              simp only [findImageInParts, imagePartData, List.filterMap_cons]
              by_cases hm : strStartsWith d.mime_type "image/" = true
              · rw [if_pos hm, if_pos hm]
                rfl
              · rw [if_neg hm, if_neg hm]
                exact ih

theorem findImage_eq (cands : List Candidate) :
    findImage cands = firstImageData cands := by
  induction cands with
  | nil => rfl
  | cons c rest ih =>
      have hsplit : firstImageData (c :: rest) =
          ((c.content.parts.filterMap imagePartData) ++
            ((rest.map (fun c => c.content.parts)).flatten.filterMap imagePartData)).head? := by
        unfold firstImageData
        rw [List.map_cons, List.flatten_cons, List.filterMap_append]
      rw [hsplit]
      cases hfp : findImageInParts c.content.parts with
      | none =>
          have h1 : findImage (c :: rest) = findImage rest := by
            simp only [findImage, hfp]
          have h0 : c.content.parts.filterMap imagePartData = [] := by
            have hh := (findImageInParts_eq c.content.parts).symm.trans hfp
            cases hl : c.content.parts.filterMap imagePartData with
            | nil => rfl
            | cons a l =>
                rw [hl] at hh
                exact absurd hh (by simp)
          rw [h1, ih, h0, List.nil_append]
          rfl
      | some d =>
          have h1 : findImage (c :: rest) = some d := by
            simp only [findImage, hfp]
          have h0 : ∃ l, c.content.parts.filterMap imagePartData = d :: l := by
            have hh := (findImageInParts_eq c.content.parts).symm.trans hfp
            cases hl : c.content.parts.filterMap imagePartData with
            | nil =>
                rw [hl] at hh
                exact absurd hh (by simp)
            | cons a l =>
                rw [hl] at hh
                simp only [List.head?_cons, Option.some.injEq] at hh
                exact ⟨l, by rw [hh]⟩
          obtain ⟨l, hl⟩ := h0
          rw [h1, hl, List.cons_append, List.head?_cons]

/-- C3: for a successfully decoded response with no error object, the stage
returns the data of the first segment whose mime type begins with "image/",
scanning candidates in order and segments within a candidate in order
(first-match policy, text segments ignored), and returns NoImageGenerated
exactly when `candidates` is absent or no segment qualifies. -/
theorem c3_first_image_extraction (resp : GeminiResponse) (body : List Nat)
    (hne : resp.error = none) :
    processResponse (Except.ok resp) body =
      match resp.candidates with
      | none => Outcome.err ApiError.noImageGenerated
      | some cands =>
        match firstImageData cands with
        | some d => Outcome.ok d
        | none => Outcome.err ApiError.noImageGenerated := by
  have hstep : processResponse (Except.ok resp) body =
      (match resp.error with
       | some ge => Outcome.err (ApiError.apiError ge.message)
       | none =>
         match resp.candidates with
         | none => Outcome.err ApiError.noImageGenerated
         | some cands =>
           match findImage cands with
           | some d => Outcome.ok d
           | none => Outcome.err ApiError.noImageGenerated) := rfl
  rw [hstep, hne]
  cases resp.candidates with
  | none => rfl
  | some cands =>
      simp only
      rw [findImage_eq]

/-- Response parts for the C3 witness: a text part ("sorry"), then an image
part, then a second image part. -/
def wParts3 : List ResponsePart :=
  [{ inline_data := none, text := some "sorry" },
   { inline_data := some { mime_type := "image/png", data := "IMG1" }, text := none },
   { inline_data := some { mime_type := "image/png", data := "IMG1b" }, text := none }]

/-- Response for the C3 witness: two candidates, both containing images. -/
def wResp3 : GeminiResponse :=
  { candidates := some
      [{ content := { parts := wParts3 } },
       { content := { parts :=
          [{ inline_data := some { mime_type := "image/jpeg", data := "IMG2" },
             text := none }] } }],
    error := none }

/-- Witness for C3 at a concrete response: the first image segment in
candidate-major, segment-minor order is returned even though later segments
and candidates also contain images, and the text segment is ignored. -/
theorem c3_first_image_extraction_witness :
    processResponse (Except.ok wResp3) [] = Outcome.ok "IMG1" := by
  have h := c3_first_image_extraction wResp3 [] rfl
  rw [h]
  decide

/-- C4: a response carrying an explicit error object yields
`ApiError(message)` even when candidates with valid image segments are also
present: the error check precedes candidate extraction. -/
theorem c4_error_precedence (resp : GeminiResponse) (body : List Nat) (msg : String)
    (he : resp.error = some { message := msg }) :
    processResponse (Except.ok resp) body = Outcome.err (ApiError.apiError msg) := by
  have hstep : processResponse (Except.ok resp) body =
      (match resp.error with
       | some ge => Outcome.err (ApiError.apiError ge.message)
       | none =>
         match resp.candidates with
         | none => Outcome.err ApiError.noImageGenerated
         | some cands =>
           match findImage cands with
           | some d => Outcome.ok d
           | none => Outcome.err ApiError.noImageGenerated) := rfl
  rw [hstep, he]

/-- Response for the C4 witness: an explicit error message alongside a valid
image candidate. -/
def wResp4 : GeminiResponse :=
  { candidates := some
      [{ content := { parts :=
          [{ inline_data := some { mime_type := "image/png", data := "IMGX" },
             text := none }] } }],
    error := some { message := "quota exceeded" } }

/-- Witness for C4 at a concrete response: the error message wins over the
valid candidate image. -/
theorem c4_error_precedence_witness :
    processResponse (Except.ok wResp4) [] =
      Outcome.err (ApiError.apiError "quota exceeded") :=
  c4_error_precedence wResp4 [] "quota exceeded" rfl

/-- Raw body for the C8 counterexample: 199 bytes of "a" followed by the
two-byte UTF-8 character U+00E9; the whole 201-byte body is not valid JSON,
so the serde parse fails, and byte index 200 falls inside the two-byte
character. -/
def cexBody8 : List Nat := List.replicate 199 97 ++ [195, 169]

/-- C8 (counterexample): the claim that an undecodable body always yields
ParseError and never panics is false: on a 201-byte body whose byte 200 is a
UTF-8 continuation byte, the excerpt slice of the body up to byte
`min(len, 200)` (api.rs line 303) panics instead of producing the
ParseError. -/
theorem c8_counterexample :
    processResponse (Except.error "expected value at line 1") cexBody8 =
      Outcome.panics := by
  decide

/-- C8 (amended): for every undecodable body whose byte index
`min(len, 200)` is a UTF-8 character boundary (in particular every ASCII
body), the stage returns ParseError carrying the serde message and the first
`min(len, 200)` bytes of the raw body — an excerpt of at most 200 bytes,
hence at most 200 characters; when that index falls inside a multi-byte
character the string slice panics instead (see `c8_counterexample`). -/
theorem c8_amended_parse_error_excerpt (e : String) (body : List Nat)
    (hb : isCharBoundary body (min body.length 200) = true) :
    processResponse (Except.error e) body =
      Outcome.err (ApiError.parseError e (body.take (min body.length 200))) ∧
    (body.take (min body.length 200)).length ≤ 200 := by
  constructor
  · have hstep : processResponse (Except.error e) body =
        (if isCharBoundary body (min body.length 200) then
          Outcome.err (ApiError.parseError e (body.take (min body.length 200)))
        else Outcome.panics) := rfl
    rw [hstep, if_pos hb]
  · rw [List.length_take]
    omega

/-- Witness for the amended C8 at a concrete short ASCII body. -/
theorem c8_amended_parse_error_excerpt_witness :
    processResponse (Except.error "EOF while parsing a value") [110, 117] =
      Outcome.err (ApiError.parseError "EOF while parsing a value" [110, 117]) := by
  have h := (c8_amended_parse_error_excerpt "EOF while parsing a value" [110, 117]
    (by decide)).1
  rw [h]
  decide

end BananaSlice
